import Mathlib

/-!
Shallow embedding of the Hanabi belief-tracking engine of `src/game.py`.

Each Python class and method is translated into a Lean definition over a
5×5 identity grid (color, value), with machine integers modelled as `Int`
and exact fractions as `Rat`.  Mutable objects become explicit state
passing: the process-wide `Game` singleton becomes a `GameState` record,
the collection of live `Card` objects becomes a store (`List Card`) in
which hands and sibling snapshots hold indices, so that the aliasing of
Python object references (a sibling snapshot sees later mutations of the
sibling's `played` flag and belief mask) is preserved.  Fallible
operations return the post-call state together with a success flag, so
that partial mutation before an exception is representable.
-/

/-- The 5×5 identity grid: matrices indexed by (color, value). -/
abbrev Mat (α : Type) : Type := Fin 5 → Fin 5 → α

/-- Update of a 5×5 matrix at one cell (`m[c, v] = x` in numpy). -/
def updMat {α : Type} (m : Mat α) (c v : Fin 5) (x : α) : Mat α :=
  Function.update m c (Function.update (m c) v x)

/-- `INIT_ARRAY` of game.py: every color row holds the counts [3, 2, 2, 2, 1]. -/
def INITM : Mat ℤ := fun _ v =>
  match v with
  | 0 => 3
  | 1 => 2
  | 2 => 2
  | 3 => 2
  | 4 => 1

/-- The attribute a clue is about: the strings "color" / "value" accepted by
`Information.__init__` in game.py (any other string raises). -/
inductive InfoType where
  | color : InfoType
  | value : InfoType
deriving DecidableEq

/-- A clue (class `Information` of game.py): an attribute, an index
(`data`, validated to lie in [0, 5)), and a polarity flag `negative`. -/
structure Information where
  type : InfoType
  data : Fin 5
  negative : Bool
deriving DecidableEq

/-- `Information.negate`: same attribute and index, flipped polarity. -/
def Information.negate (i : Information) : Information :=
  ⟨i.type, i.data, !i.negative⟩

/-- A card (class `Card` of game.py).  `states` is the 5×5 boolean belief
mask (initialised to all `true`); `cards_in_hand` is the sibling snapshot,
holding store indices of the cards that were in the hand when this card
was added. -/
structure Card where
  color : Fin 5
  value : Fin 5
  player_id : ℕ
  states : Mat Bool
  played : Bool
  cards_in_hand : List ℕ

/-- A default card, used only as the fallback of `List.getD` lookups. -/
def defaultCard : Card :=
  ⟨0, 0, 0, fun _ _ => true, false, []⟩

/-- The mask-level effect of `Card.add_information` in game.py, which
zeroes rows (color clues) or columns (value clues) of the belief mask:
an affirmed color clue executes `self[:d, :] = 0; self[d+1:, :] = 0`,
a negated color clue executes `self[d, :] = 0`, and value clues do the
same on columns. -/
def applyInfo (info : Information) (m : Mat Bool) : Mat Bool :=
  match info.type with
  | InfoType.color =>
      if info.negative then
        fun c v => if c = info.data then false else m c v
      else
        fun c v => if c = info.data then m c v else false
  | InfoType.value =>
      if info.negative then
        fun c v => if v = info.data then false else m c v
      else
        fun c v => if v = info.data then m c v else false

/-- `Card.add_information`: replaces the belief mask, leaving every other
field unchanged.  The source performs no check of the `played` flag here. -/
def Card.add_information (card : Card) (info : Information) : Card :=
  { card with states := applyInfo info card.states }

/-- The 5×5 mask a single clue conjoins onto the belief mask: a cell stays
alive iff it is compatible with the clue. -/
def clueMask (info : Information) : Mat Bool :=
  match info.type with
  | InfoType.color =>
      if info.negative then fun c _ => decide (c ≠ info.data)
      else fun c _ => decide (c = info.data)
  | InfoType.value =>
      if info.negative then fun _ v => decide (v ≠ info.data)
      else fun _ v => decide (v = info.data)

/-- Modelled from the spec: elementwise subtraction of `FractionMatrix`
(class in `utils.py`, which is not under src/); section 4.3 of the spec
describes it as elementwise subtraction of the rational entries of two
matrices sharing the same denominator basis. -/
def matSub (a b : Mat ℚ) : Mat ℚ := fun c v => a c v - b c v

/-- Modelled from the spec: elementwise multiplication of a
`FractionMatrix` (in `utils.py`, not under src/) by a boolean mask, which
zeroes the masked-out cells and keeps the others. -/
def maskMul (mask : Mat Bool) (m : Mat ℚ) : Mat ℚ :=
  fun c v => if mask c v then m c v else 0

/-- The sum of all 25 entries of a rational matrix. -/
def matSum (m : Mat ℚ) : ℚ := ∑ c : Fin 5, ∑ v : Fin 5, m c v

/-- The sum of all 25 entries of an integer matrix (`np.sum`). -/
def matZSum (m : Mat ℤ) : ℤ := ∑ c : Fin 5, ∑ v : Fin 5, m c v

/-- Modelled from the spec: `make_proba` of `FractionMatrix` (in
`utils.py`, not under src/) normalizes by taking the sum of the remaining
entries as the new shared denominator, re-expressing the entries as exact
numerators over it; the numerator grid is therefore unchanged and the
denominator becomes the sum.  Viewing an integer matrix as a
`FractionMatrix` (`.view(FractionMatrix)`) keeps the integer counts as
rational entries. -/
def intMatToRat (m : Mat ℤ) : Mat ℚ := fun c v => (m c v : ℚ)

/-- Fuel-indexed core of `Card.probabilities` of game.py: starting from
`player_state`, subtract the recursively computed distribution of every
not-yet-played sibling recorded in the snapshot (in snapshot order), then
multiply elementwise by the card's own belief mask.  The fuel argument
makes the Python recursion (which terminates because sibling snapshots
reference strictly earlier cards) structural; both fallback branches are
unreachable whenever the store is well formed and the fuel exceeds the
card's index. -/
def probabilitiesFuel (cards : List Card) (player_state : Mat ℚ) :
    ℕ → ℕ → Mat ℚ
  | 0, _ => fun _ _ => 0
  | fuel + 1, cid =>
      match cards.get? cid with
      | none => fun _ _ => 0
      | some card =>
          maskMul card.states
            (card.cards_in_hand.foldl
              (fun acc sid =>
                match cards.get? sid with
                | none => acc
                | some s =>
                    if s.played then acc
                    else matSub acc (probabilitiesFuel cards player_state fuel sid))
              player_state)

/-- `Card.probabilities(return_denominator=True)`: the distribution matrix
(exact counts) together with its denominator, the sum of the remaining
entries produced by `make_proba`. -/
def probabilities (cards : List Card) (player_state : Mat ℚ) (cid : ℕ) :
    Mat ℚ × ℚ :=
  let m := probabilitiesFuel cards player_state (cid + 1) cid
  (m, matSum m)

/-- Well-formedness of the card store: every sibling recorded in a card's
snapshot was added to the store strictly earlier.  game.py relies on this
("Otherwise, infinite loop may occur when computing probabilities"). -/
def wfCards (cards : List Card) : Prop :=
  ∀ i < cards.length, ∀ sid ∈ (cards.getD i defaultCard).cards_in_hand, sid < i

/-- `Card.probabilities` with `player_state` unspecified starts from the
matrix of the card's own player, `Game.states[self.player_id]`. -/
def probabilitiesDefault (deckStates : ℕ → Mat ℤ) (cards : List Card) (cid : ℕ) :
    Mat ℚ × ℚ :=
  match cards.get? cid with
  | none => (fun _ _ => 0, 0)
  | some card => probabilities cards (intMatToRat (deckStates card.player_id)) cid

/-- `Card.determined` of game.py: counts the non-zero cells of the card's
probability distribution; asserts that the count is non-zero (`none`
models the fatal `AssertionError`), and answers whether it is exactly 1. -/
def determined (cards : List Card) (player_state : Mat ℚ) (cid : ℕ) :
    Option Bool :=
  let m := (probabilities cards player_state cid).1
  let n := (Finset.univ.filter
    (fun p : Fin 5 × Fin 5 => m p.1 p.2 ≠ 0)).card
  if n = 0 then none
  else if n = 1 then some true else some false

/-- The first cell of a boolean matrix that holds `true`, in row-major
order: `np.argwhere(mask == 1)[0]` in game.py (`none` models the
`IndexError` on an all-false mask). -/
def firstTrue (m : Mat Bool) : Option (Fin 5 × Fin 5) :=
  (((List.finRange 5).flatMap (fun c => (List.finRange 5).map (fun v => (c, v))))).find?
    (fun p => m p.1 p.2)

/-- `Card.well_predicted` of game.py: if `determined()`, compare the first
row-major `true` cell of the card's own belief mask (`self.states`) with
the card's true identity; otherwise answer `false`.  `none` propagates a
failure of `determined`. -/
def well_predicted (cards : List Card) (player_state : Mat ℚ) (cid : ℕ) :
    Option Bool :=
  match cards.get? cid with
  | none => none
  | some card =>
      match determined cards player_state cid with
      | none => none
      | some d =>
          if d then
            match firstTrue card.states with
            | none => none
            | some idx =>
                if idx.1 = card.color ∧ idx.2 = card.value then some true
                else some false
          else some false

/-- The list of the five rows of a matrix: iterating a numpy 5×5 array
yields its rows, which is what the tuple unpacking in `most_likely`
iterates over. -/
def matRows (m : Mat ℚ) : List (Fin 5 → ℚ) :=
  (List.finRange 5).map (fun c => m c)

/-- `Card.most_likely` of game.py.  The source executes
`probabilities, total = self.probabilities()`, unpacking the single 5×5
matrix returned by `probabilities()` (called without
`return_denominator=True`) into two names; unpacking iterates the rows of
the array, so five rows against two targets raises `ValueError`, modelled
by the error branch.  The success branch (reachable only for a two-row
unpack) mirrors the remaining source lines on the two unpacked values. -/
def most_likely (cards : List Card) (player_state : Mat ℚ) (cid : ℕ)
    (return_proba : Bool) :
    Except String (List (Fin 5) × Option (Fin 5 → ℚ)) :=
  match matRows (probabilities cards player_state cid).1 with
  | [p, t] =>
      let mx := (List.finRange 5).foldl (fun acc i => max acc (p i)) (p 0)
      let args := (List.finRange 5).filter (fun i => decide (p i = mx))
      Except.ok (args, if return_proba then some (fun i => mx / t i) else none)
  | _ => Except.error "too many values to unpack"

/-- The process-wide singleton state of class `Game` in game.py.  `states`
and `players` are the per-player lists, represented as functions from the
player id together with the explicit count `num_players`; `cards` is the
store of all live `Card` objects, referenced by index from hands and
sibling snapshots.  The source's `stacks` is rendered `stacks'` because
`stacks` is a reserved word here. -/
structure GameState where
  deck : Mat ℤ
  num_players : ℕ
  states : ℕ → Mat ℤ
  players : ℕ → List ℕ
  cards : List Card
  stacks' : Fin 5 → ℤ
  score : ℤ
  penalty : ℤ

/-- The initial class-level state of `Game`: a full deck, no players, all
stacks at 0 (ghost entries of the player-indexed maps are empty). -/
def initGame : GameState :=
  ⟨INITM, 0, fun _ => INITM, fun _ => [], [], fun _ => 0, 0, 0⟩

/-- `Game.add_player`: appends a fresh `Hand` and a fresh full-count
state matrix; the new player's id is the previous player count. -/
def add_player (g : GameState) : GameState :=
  { g with
      num_players := g.num_players + 1,
      states := Function.update g.states g.num_players INITM,
      players := Function.update g.players g.num_players [] }

/-- `Game.deal_card` for a freshly constructed `Card(c, v, hand)` whose
hand is player `pid`.  Fails (raising, with no mutation) if the player id
is out of range or the deck cell of the identity is 0; otherwise
decrements the deck cell, decrements the same cell of every other
player's state matrix, and appends the card to the owner's hand
(`Hand.add_card`), recording the current hand contents as the new card's
sibling snapshot unless `game_start`.  The player-id bound is modelled
from the spec: `check_isin` lives in `utils.py` (not under src/) and the
spec gives the valid range [0, player_count). -/
def deal_card (g : GameState) (c v : Fin 5) (pid : ℕ) (game_start : Bool) :
    GameState × Bool :=
  if pid < g.num_players then
    if g.deck c v = 0 then (g, false)
    else
      let hand := g.players pid
      let newCard : Card :=
        ⟨c, v, pid, fun _ _ => true, false, if game_start then [] else hand⟩
      ({ g with
          deck := updMat g.deck c v (g.deck c v - 1),
          states := fun i =>
            if i < g.num_players ∧ i ≠ pid then
              updMat (g.states i) c v (g.states i c v - 1)
            else g.states i,
          players := Function.update g.players pid (hand ++ [g.cards.length]),
          cards := g.cards ++ [newCard] }, true)
  else (g, false)

/-- `Game.play_card` on the card at position `idx` of player `pid`'s
hand: marks the card played, removes it from the hand, decrements the
owner's own state matrix at the card's true identity, and either advances
the matching stack and the score (when `stacks[color] == value`) or
increments the penalty. -/
def play_card (g : GameState) (pid idx : ℕ) : GameState × Bool :=
  if pid < g.num_players then
    match (g.players pid).get? idx with
    | none => (g, false)
    | some cid =>
        match g.cards.get? cid with
        | none => (g, false)
        | some card =>
            let base := { g with
              cards := g.cards.set cid { card with played := true },
              players := Function.update g.players pid ((g.players pid).erase cid),
              states := Function.update g.states pid
                (updMat (g.states pid) card.color card.value
                  (g.states pid card.color card.value - 1)) }
            if g.stacks' card.color = (card.value : ℤ) then
              ({ base with
                  stacks' := Function.update g.stacks' card.color
                    (g.stacks' card.color + 1),
                  score := g.score + 1 }, true)
            else
              ({ base with penalty := g.penalty + 1 }, true)
  else (g, false)

/-- The first loop of `Hand.add_information` in game.py: walks the target
indices in order; raising on an index whose card is already played (or on
an out-of-range index) leaves the store as mutated so far — Python raises
after the earlier targeted cards have already received the clue. -/
def handApplyTargets (cards : List Card) (hand : List ℕ) (info : Information) :
    List ℕ → List Card × Bool
  | [] => (cards, true)
  | t :: rest =>
      match hand.get? t with
      | none => (cards, false)
      | some cid =>
          match cards.get? cid with
          | none => (cards, false)
          | some card =>
              if card.played then (cards, false)
              else handApplyTargets (cards.set cid (card.add_information info))
                hand info rest

/-- The second loop of `Hand.add_information`: every hand position not
among the targets whose card is not played receives the negated clue. -/
def handNegateOthers (cards : List Card) (hand : List ℕ) (targets : List ℕ)
    (info : Information) : List Card :=
  (hand.enum.foldl
    (fun cs p =>
      if p.1 ∈ targets then cs
      else
        match cs.get? p.2 with
        | none => cs
        | some card =>
            if card.played then cs
            else cs.set p.2 (card.add_information info.negate))
    cards)

/-- `Hand.add_information(card_index, info)` for the hand `hand` of a
store `cards`: applies the clue to each targeted card in order (stopping
with a failure at the first played target, keeping earlier mutations) and
then the negated clue to the not-targeted, not-played cards. -/
def hand_add_information (cards : List Card) (hand : List ℕ)
    (targets : List ℕ) (info : Information) : List Card × Bool :=
  let r := handApplyTargets cards hand info targets
  if r.2 then (handNegateOthers r.1 hand targets info, true)
  else (r.1, false)

/-- `Game.give_information`: forwards to the named hand. An out-of-range
player id raises before any mutation. -/
def give_information (g : GameState) (pid : ℕ) (targets : List ℕ)
    (info : Information) : GameState × Bool :=
  if pid < g.num_players then
    let r := hand_add_information g.cards (g.players pid) targets info
    ({ g with cards := r.1 }, r.2)
  else (g, false)

/-- The loop of `Game.deal_hand`: each draw first requires a non-empty
deck (`random_card` raises on an exhausted deck), then deals the sampled
identity.  The random sample is replaced by an oracle list of identities;
`random_card` itself reads but never mutates the state. -/
def dealHandLoop (pid : ℕ) (game_start : Bool) :
    GameState → List (Fin 5 × Fin 5) → GameState × Bool
  | g, [] => (g, true)
  | g, s :: rest =>
      if matZSum g.deck = 0 then (g, false)
      else
        let r := deal_card g s.1 s.2 pid game_start
        if r.2 then dealHandLoop pid game_start r.1 rest else (r.1, false)

/-- `Game.deal_hand(player_id, n)`: checks the player id, then draws and
deals the `n` oracle-sampled identities in order. -/
def deal_hand (g : GameState) (pid : ℕ) (game_start : Bool)
    (samples : List (Fin 5 × Fin 5)) : GameState × Bool :=
  if pid < g.num_players then dealHandLoop pid game_start g samples
  else (g, false)

/-- The game states reachable from the initial `Game` class state through
the public mutating operations (taking the post-call state whether the
call succeeds or raises). -/
inductive Reachable : GameState → Prop where
  | init : Reachable initGame
  | add_player {g} : Reachable g → Reachable (add_player g)
  | deal_card {g} (c v : Fin 5) (pid : ℕ) (gs : Bool) :
      Reachable g → Reachable (deal_card g c v pid gs).1
  | deal_hand {g} (pid : ℕ) (gs : Bool) (samples : List (Fin 5 × Fin 5)) :
      Reachable g → Reachable (deal_hand g pid gs samples).1
  | play_card {g} (pid idx : ℕ) :
      Reachable g → Reachable (play_card g pid idx).1
  | give_information {g} (pid : ℕ) (targets : List ℕ) (info : Information) :
      Reachable g → Reachable (give_information g pid targets info).1

/-- Whether store index `cid` holds a card of identity (c, v). -/
def idPred (cards : List Card) (c v : Fin 5) (cid : ℕ) : Bool :=
  match cards.get? cid with
  | some card => decide (card.color = c ∧ card.value = v)
  | none => false

/-- The number of cards of identity (c, v) currently in player `p`'s
hand. -/
def handCount (g : GameState) (p : ℕ) (c v : Fin 5) : ℕ :=
  (g.players p).countP (idPred g.cards c v)

instance wfCardsDecidable (cards : List Card) : Decidable (wfCards cards) := by
  unfold wfCards
  exact inferInstance

/-- A clue is truthful for a card of true identity (tc, tv) when an
affirmed clue names the true attribute value and a negated clue names a
different one. -/
def truthful (tc tv : Fin 5) (i : Information) : Bool :=
  match i.type with
  | InfoType.color => if i.negative then i.data != tc else i.data == tc
  | InfoType.value => if i.negative then i.data != tv else i.data == tv

lemma applyInfo_eq_and (i : Information) (m : Mat Bool) :
    applyInfo i m = fun c v => m c v && clueMask i c v := by
  obtain ⟨t, d, n⟩ := i
  funext c v
  cases t <;> cases n <;>
    by_cases hc : c = d <;> by_cases hv : v = d <;>
      simp [applyInfo, clueMask, hc, hv]

lemma applyInfo_truthful {tc tv : Fin 5} {i : Information} {m : Mat Bool}
    (ht : truthful tc tv i = true) (hm : m tc tv = true) :
    applyInfo i m tc tv = true := by
  obtain ⟨t, d, n⟩ := i
  cases t <;> cases n <;> simp [truthful] at ht
  · subst ht; simp [applyInfo, hm]
  · simp [applyInfo, hm, Ne.symm ht]
  · subst ht; simp [applyInfo, hm]
  · simp [applyInfo, hm, Ne.symm ht]

/-- C10: `Card.add_information(clue)` replaces the belief mask by the
pointwise conjunction of the prior mask with a 5×5 mask depending only on
the clue; consequently two clues commute and a repeated clue is
idempotent. -/
theorem C10_add_information_is_conjunction (card : Card) (i i1 i2 : Information) :
    (card.add_information i).states
      = (fun c v => card.states c v && clueMask i c v) ∧
    (card.add_information i1).add_information i2
      = (card.add_information i2).add_information i1 ∧
    (card.add_information i).add_information i = card.add_information i := by
  refine ⟨applyInfo_eq_and i card.states, ?_, ?_⟩
  · simp only [Card.add_information, applyInfo_eq_and]
    congr 1
    funext c v
    exact (by decide : ∀ a b c : Bool, ((a && b) && c) = ((a && c) && b)) _ _ _
  · simp only [Card.add_information, applyInfo_eq_and]
    congr 1
    funext c v
    exact (by decide : ∀ a b : Bool, ((a && b) && b) = (a && b)) _ _

/-- C7: for a non-played card, an affirmed color clue of index c zeroes
every row of the belief mask except row c (left unchanged), a negated
color clue zeroes row c only, value clues act the same on columns, and no
cell is ever set back to true. -/
theorem C7_clue_application_cases (card : Card) (info : Information)
    (hp : card.played = false) :
    (info.type = InfoType.color → info.negative = false →
      (∀ c v, c ≠ info.data → (card.add_information info).states c v = false) ∧
      (∀ v, (card.add_information info).states info.data v
        = card.states info.data v)) ∧
    (info.type = InfoType.color → info.negative = true →
      (∀ v, (card.add_information info).states info.data v = false) ∧
      (∀ c v, c ≠ info.data → (card.add_information info).states c v
        = card.states c v)) ∧
    (info.type = InfoType.value → info.negative = false →
      (∀ c v, v ≠ info.data → (card.add_information info).states c v = false) ∧
      (∀ c, (card.add_information info).states c info.data
        = card.states c info.data)) ∧
    (info.type = InfoType.value → info.negative = true →
      (∀ c, (card.add_information info).states c info.data = false) ∧
      (∀ c v, v ≠ info.data → (card.add_information info).states c v
        = card.states c v)) ∧
    (∀ c v, (card.add_information info).states c v = true →
      card.states c v = true) := by
  obtain ⟨t, d, n⟩ := info
  refine ⟨?_, ?_, ?_, ?_, ?_⟩
  · intro ht hn
    subst ht; subst hn
    constructor
    · intro c v hc
      simp [Card.add_information, applyInfo, hc]
    · intro v
      simp [Card.add_information, applyInfo]
  · intro ht hn
    subst ht; subst hn
    constructor
    · intro v
      simp [Card.add_information, applyInfo]
    · intro c v hc
      simp [Card.add_information, applyInfo, hc]
  · intro ht hn
    subst ht; subst hn
    constructor
    · intro c v hv
      simp [Card.add_information, applyInfo, hv]
    · intro c
      simp [Card.add_information, applyInfo]
  · intro ht hn
    subst ht; subst hn
    constructor
    · intro c
      simp [Card.add_information, applyInfo]
    · intro c v hv
      simp [Card.add_information, applyInfo, hv]
  · intro c v
    cases t <;> cases n <;>
      by_cases hc : c = d <;> by_cases hv : v = d <;>
        simp [Card.add_information, applyInfo, hc, hv]

/-- Witness for C7 at a concrete non-played card and clue. -/
theorem C7_clue_application_cases_witness :
    defaultCard.played = false ∧
    ((InfoType.color = InfoType.color → false = false →
      (∀ c v, c ≠ (2 : Fin 5) →
        (defaultCard.add_information ⟨InfoType.color, 2, false⟩).states c v = false) ∧
      (∀ v, (defaultCard.add_information ⟨InfoType.color, 2, false⟩).states 2 v
        = defaultCard.states 2 v)) ∧
    (InfoType.color = InfoType.color → false = true →
      (∀ v, (defaultCard.add_information ⟨InfoType.color, 2, false⟩).states 2 v = false) ∧
      (∀ c v, c ≠ (2 : Fin 5) →
        (defaultCard.add_information ⟨InfoType.color, 2, false⟩).states c v
        = defaultCard.states c v)) ∧
    (InfoType.color = InfoType.value → false = false →
      (∀ c v, v ≠ (2 : Fin 5) →
        (defaultCard.add_information ⟨InfoType.color, 2, false⟩).states c v = false) ∧
      (∀ c, (defaultCard.add_information ⟨InfoType.color, 2, false⟩).states c 2
        = defaultCard.states c 2)) ∧
    (InfoType.color = InfoType.value → false = true →
      (∀ c, (defaultCard.add_information ⟨InfoType.color, 2, false⟩).states c 2 = false) ∧
      (∀ c v, v ≠ (2 : Fin 5) →
        (defaultCard.add_information ⟨InfoType.color, 2, false⟩).states c v
        = defaultCard.states c v)) ∧
    (∀ c v, (defaultCard.add_information ⟨InfoType.color, 2, false⟩).states c v = true →
      defaultCard.states c v = true)) :=
  ⟨rfl, C7_clue_application_cases defaultCard ⟨InfoType.color, 2, false⟩ rfl⟩

/-- C9: any sequence of truthful clues leaves the belief-mask cell at the
card's true identity alive. -/
theorem C9_truthful_clues_preserve_identity (card : Card)
    (infos : List Information)
    (htruth : infos.all (truthful card.color card.value) = true)
    (hcell : card.states card.color card.value = true) :
    (infos.foldl Card.add_information card).states card.color card.value
      = true := by
  induction infos generalizing card with
  | nil => simpa using hcell
  | cons i rest ih =>
      simp only [List.all_cons, Bool.and_eq_true] at htruth
      simp only [List.foldl_cons]
      exact ih (card.add_information i) htruth.2
        (applyInfo_truthful htruth.1 hcell)

/-- The concrete card used by the C9 witness: true identity (2, 3). -/
def c9card : Card := ⟨2, 3, 0, fun _ _ => true, false, []⟩

/-- Witness for C9: an affirmed color-2 clue followed by a negated
value-0 clue, both truthful for identity (2, 3). -/
theorem C9_truthful_clues_preserve_identity_witness :
    ([⟨InfoType.color, 2, false⟩, ⟨InfoType.value, 0, true⟩] :
        List Information).all (truthful c9card.color c9card.value) = true ∧
    c9card.states c9card.color c9card.value = true ∧
    (([⟨InfoType.color, 2, false⟩, ⟨InfoType.value, 0, true⟩] :
        List Information).foldl Card.add_information c9card).states
      c9card.color c9card.value = true :=
  ⟨by decide, rfl,
    C9_truthful_clues_preserve_identity c9card _ (by decide) rfl⟩

/-- The played card used by C5's counterexample and witness. -/
def c5card : Card := ⟨0, 0, 0, fun _ _ => true, true, []⟩

/-- The clue used by C5's counterexample and witness. -/
def c5clue : Information := ⟨InfoType.color, 0, true⟩

/-- Counterexample to C5: `Card.add_information` never checks the
`played` flag — on a played card it succeeds and modifies the belief
mask (the played-card check of the source lives only in
`Hand.add_information`). -/
theorem C5_counterexample :
    c5card.played = true ∧
    (c5card.add_information c5clue).states 0 0 = false ∧
    c5card.states 0 0 = true := by
  decide

/-- C5 amended: `Card.add_information` on a played card does not fail;
it applies the clue mask to the belief mask exactly as for a non-played
card and leaves every other field (including `played`) unchanged. -/
theorem C5_add_information_ignores_played (card : Card) (info : Information)
    (hp : card.played = true) :
    (card.add_information info).played = true ∧
    (card.add_information info).color = card.color ∧
    (card.add_information info).value = card.value ∧
    (card.add_information info).cards_in_hand = card.cards_in_hand ∧
    (card.add_information info).states
      = fun c v => card.states c v && clueMask info c v :=
  ⟨hp, rfl, rfl, rfl, applyInfo_eq_and info card.states⟩

/-- Witness for the amended C5 at the concrete played card. -/
theorem C5_add_information_ignores_played_witness :
    c5card.played = true ∧
    ((c5card.add_information c5clue).played = true ∧
    (c5card.add_information c5clue).color = c5card.color ∧
    (c5card.add_information c5clue).value = c5card.value ∧
    (c5card.add_information c5clue).cards_in_hand = c5card.cards_in_hand ∧
    (c5card.add_information c5clue).states
      = fun c v => c5card.states c v && clueMask c5clue c v) :=
  ⟨rfl, C5_add_information_ignores_played c5card c5clue rfl⟩

/-- C3: `Card.most_likely` always raises.  The source unpacks
`probabilities, total = self.probabilities()`, but `probabilities()`
called without `return_denominator=True` returns the bare 5×5 matrix, so
the two-target unpack of its five rows raises `ValueError` before any
maximum is computed. -/
theorem C3_most_likely_raises (cards : List Card) (player_state : Mat ℚ)
    (cid : ℕ) (return_proba : Bool) :
    most_likely cards player_state cid return_proba
      = Except.error "too many values to unpack" := rfl

/-- Evaluation of C3's failing call at a concrete input: the very first
card of a fresh one-player game, queried with `return_proba = true`. -/
theorem C3_most_likely_raises_example :
    most_likely [defaultCard] (intMatToRat INITM) 0 true
      = Except.error "too many values to unpack" := rfl

/-- The card of C2's counterexample: true identity (0, 1), belief mask
narrowed by truthful clues (affirmed color 0, negated values 2, 3, 4) to
row 0, columns 0 and 1, no siblings. -/
def c2card : Card :=
  ⟨0, 1, 0, fun c v => decide (c = 0 ∧ (v = 0 ∨ v = 1)), false, []⟩

/-- The visible-state matrix of C2's counterexample: the initial counts
with cell (0, 0) exhausted (all three copies of (0, 0) seen in another
player's hand). -/
def c2state : Mat ℚ := intMatToRat (updMat INITM 0 0 0)

/-- Counterexample to C2: the distribution of `c2card` has exactly one
non-zero cell, at (0, 1), which is the card's true identity, so the claim
demands `well_predicted = true`; but the source compares the first
row-major `1` of the belief mask (here (0, 0)) with the identity and
answers `false`. -/
theorem C2_counterexample :
    determined [c2card] c2state 0 = some true ∧
    (probabilities [c2card] c2state 0).1 0 1 ≠ 0 ∧
    (Finset.univ.filter (fun p : Fin 5 × Fin 5 =>
      (probabilities [c2card] c2state 0).1 p.1 p.2 ≠ 0)).card = 1 ∧
    c2card.color = 0 ∧ c2card.value = 1 ∧
    well_predicted [c2card] c2state 0 = some false := by
  decide

/-- C2 amended: `well_predicted()` returns true iff `determined()`
returns true and the first row-major true cell of the card's belief mask
(not the unique non-zero cell of the distribution) has the coordinates of
the card's true identity. -/
theorem C2_well_predicted_uses_mask (cards : List Card)
    (player_state : Mat ℚ) (cid : ℕ) (card : Card)
    (h : cards.get? cid = some card) :
    well_predicted cards player_state cid = some true ↔
      (determined cards player_state cid = some true ∧
        firstTrue card.states = some (card.color, card.value)) := by
  unfold well_predicted
  simp only [h]
  cases hd : determined cards player_state cid with
  | none => simp
  | some d =>
      cases d with
      | false => simp
      | true =>
          cases hf : firstTrue card.states with
          | none => simp
          | some idx =>
              by_cases hi : idx.1 = card.color ∧ idx.2 = card.value
              · simp [hi, Prod.ext_iff]
              · simp [hi, Prod.ext_iff]

/-- The fully determined card of C2's witness: identity (0, 0), mask
narrowed to the single cell (0, 0). -/
def c2wcard : Card :=
  ⟨0, 0, 0, fun c v => decide (c = 0 ∧ v = 0), false, []⟩

/-- Witness for the amended C2 at a concrete determined card. -/
theorem C2_well_predicted_uses_mask_witness :
    ([c2wcard].get? 0 = some c2wcard) ∧
    (well_predicted [c2wcard] (intMatToRat INITM) 0 = some true ↔
      (determined [c2wcard] (intMatToRat INITM) 0 = some true ∧
        firstTrue c2wcard.states = some (c2wcard.color, c2wcard.value))) :=
  ⟨rfl, C2_well_predicted_uses_mask [c2wcard] (intMatToRat INITM) 0 c2wcard rfl⟩

lemma wf_sibling_lt {cards : List Card} (hwf : wfCards cards) {cid : ℕ}
    {card : Card} (h : cards.get? cid = some card) :
    ∀ sid ∈ card.cards_in_hand, sid < cid := by
  intro sid hs
  have hlt : cid < cards.length := (List.get?_eq_some.mp h).1
  have hd : cards.getD cid defaultCard = card := by
    rw [List.getD_eq_getD_get?, h]
    rfl
  exact hwf cid hlt sid (by rw [hd]; exact hs)

lemma probabilitiesFuel_congr (cards : List Card) (ps : Mat ℚ)
    (hwf : wfCards cards) :
    ∀ cid f1 f2, cid < f1 → cid < f2 →
      probabilitiesFuel cards ps f1 cid = probabilitiesFuel cards ps f2 cid := by
  intro cid
  induction cid using Nat.strong_induction_on with
  | _ cid ih =>
      intro f1 f2 h1 h2
      cases f1 with
      | zero => omega
      | succ g1 =>
          cases f2 with
          | zero => omega
          | succ g2 =>
              simp only [probabilitiesFuel]
              cases hc : cards.get? cid with
              | none => rfl
              | some card =>
                  simp only [hc]
                  refine congrArg (maskMul card.states) ?_
                  apply List.foldl_ext
                  intro acc sid hsid
                  have hlt : sid < cid := wf_sibling_lt hwf hc sid hsid
                  cases hs : cards.get? sid with
                  | none => simp only [hs]
                  | some s =>
                      simp only [hs]
                      by_cases hp : s.played = true
                      · simp [hp]
                      · simp only [hp, if_false, Bool.false_eq_true]
                        exact congrArg (matSub acc)
                          (ih sid hlt g1 g2 (by omega) (by omega))

/-- C1: `probabilities(player_state)` starts from the given visible-state
matrix (the card's own player's matrix when unspecified), subtracts
elementwise the recursively computed distribution of every not-yet-played
snapshot sibling under the same `player_state`, multiplies elementwise by
the card's own belief mask, and returns the counts together with the
denominator (the sum of the remaining counts). -/
theorem C1_probabilities_recurrence (cards : List Card) (ps : Mat ℚ)
    (cid : ℕ) (card : Card) (deckStates : ℕ → Mat ℤ)
    (hwf : wfCards cards) (h : cards.get? cid = some card) :
    (probabilities cards ps cid).1
      = maskMul card.states
          (card.cards_in_hand.foldl
            (fun acc sid =>
              match cards.get? sid with
              | none => acc
              | some s =>
                  if s.played then acc
                  else matSub acc (probabilities cards ps sid).1)
            ps) ∧
    (probabilities cards ps cid).2 = matSum (probabilities cards ps cid).1 ∧
    probabilitiesDefault deckStates cards cid
      = probabilities cards (intMatToRat (deckStates card.player_id)) cid := by
  refine ⟨?_, rfl, ?_⟩
  · show probabilitiesFuel cards ps (cid + 1) cid = _
    simp only [probabilitiesFuel]
    simp only [h]
    refine congrArg (maskMul card.states) ?_
    apply List.foldl_ext
    intro acc sid hsid
    have hlt : sid < cid := wf_sibling_lt hwf h sid hsid
    cases hs : cards.get? sid with
    | none => simp only [hs]
    | some s =>
        simp only [hs]
        by_cases hp : s.played = true
        · simp [hp]
        · simp only [hp, if_false, Bool.false_eq_true]
          exact congrArg (matSub acc)
            (probabilitiesFuel_congr cards ps hwf sid cid (sid + 1) hlt
              (by omega))
  · simp only [probabilitiesDefault, h]

/-- The sibling card of C1's witness. -/
def c1sib : Card := ⟨0, 0, 1, fun _ _ => true, false, []⟩

/-- The queried card of C1's witness: its snapshot holds the sibling. -/
def c1main : Card := ⟨1, 1, 1, fun _ _ => true, false, [0]⟩

/-- The two-card store of C1's witness. -/
def c1cards : List Card := [c1sib, c1main]

/-- Witness for C1 at a concrete two-card store with a live sibling. -/
theorem C1_probabilities_recurrence_witness :
    wfCards c1cards ∧ c1cards.get? 1 = some c1main ∧
    ((probabilities c1cards (intMatToRat INITM) 1).1
      = maskMul c1main.states
          (c1main.cards_in_hand.foldl
            (fun acc sid =>
              match c1cards.get? sid with
              | none => acc
              | some s =>
                  if s.played then acc
                  else matSub acc (probabilities c1cards (intMatToRat INITM) sid).1)
            (intMatToRat INITM)) ∧
    (probabilities c1cards (intMatToRat INITM) 1).2
      = matSum (probabilities c1cards (intMatToRat INITM) 1).1 ∧
    probabilitiesDefault (fun _ => INITM) c1cards 1
      = probabilities c1cards (intMatToRat INITM) 1) :=
  ⟨by decide, rfl,
    C1_probabilities_recurrence c1cards (intMatToRat INITM) 1 c1main
      (fun _ => INITM) (by decide) rfl⟩

/-- A target index resolves to a card of the hand that is not yet
played (`Hand.add_information` applies the clue to it). -/
def targetOkB (cards : List Card) (hand : List ℕ) (t : ℕ) : Bool :=
  match hand.get? t with
  | none => false
  | some cid =>
      match cards.get? cid with
      | none => false
      | some card => !card.played

/-- A target index resolves to a card of the hand that is already played
(`Hand.add_information` raises on it). -/
def targetPlayedB (cards : List Card) (hand : List ℕ) (t : ℕ) : Bool :=
  match hand.get? t with
  | none => false
  | some cid =>
      match cards.get? cid with
      | none => false
      | some card => card.played

lemma get?_set_of_get? {cards : List Card} {cid : ℕ} {card : Card}
    (h : cards.get? cid = some card) (c' : Card) (j : ℕ) :
    (cards.set cid c').get? j = if j = cid then some c' else cards.get? j := by
  have hlt : cid < cards.length := (List.get?_eq_some.mp h).1
  by_cases hj : j = cid
  · subst hj
    rw [if_pos rfl]
    exact List.get?_set_eq_of_lt c' hlt
  · rw [if_neg hj]
    exact List.get?_set_ne c' cards (fun hh => hj hh.symm)

lemma targetOkB_set_addinfo {cards : List Card} {cid : ℕ} {card : Card}
    (h : cards.get? cid = some card) (info : Information)
    (hand : List ℕ) (t : ℕ) :
    targetOkB (cards.set cid (card.add_information info)) hand t
      = targetOkB cards hand t := by
  unfold targetOkB
  cases hh : hand.get? t with
  | none => rfl
  | some c2 =>
      dsimp only
      rw [get?_set_of_get? h]
      by_cases hc : c2 = cid
      · subst hc
        rw [if_pos rfl, h]
        rfl
      · rw [if_neg hc]

lemma targetPlayedB_set_addinfo {cards : List Card} {cid : ℕ} {card : Card}
    (h : cards.get? cid = some card) (info : Information)
    (hand : List ℕ) (t : ℕ) :
    targetPlayedB (cards.set cid (card.add_information info)) hand t
      = targetPlayedB cards hand t := by
  unfold targetPlayedB
  cases hh : hand.get? t with
  | none => rfl
  | some c2 =>
      dsimp only
      rw [get?_set_of_get? h]
      by_cases hc : c2 = cid
      · subst hc
        rw [if_pos rfl, h]
        rfl
      · rw [if_neg hc]

lemma all_eq_all_of_mem {α : Type} {l : List α} {f g : α → Bool}
    (h : ∀ x ∈ l, f x = g x) : l.all f = l.all g := by
  induction l with
  | nil => rfl
  | cons y ys ih =>
      have hy : f y = g y := h y (List.mem_cons_self y ys)
      have hrest := ih fun z hz => h z (List.mem_cons_of_mem y hz)
      simp only [List.all_cons, hy, hrest]

lemma handApplyTargets_fail (cards : List Card) (hand : List ℕ)
    (info : Information) (pre : List ℕ) (t : ℕ) (post : List ℕ)
    (hpre : pre.all (targetOkB cards hand) = true)
    (ht : targetPlayedB cards hand t = true) :
    handApplyTargets cards hand info (pre ++ t :: post)
      = ((handApplyTargets cards hand info pre).1, false) := by
  induction pre generalizing cards with
  | nil =>
      unfold targetPlayedB at ht
      cases hh : hand.get? t with
      | none => rw [hh] at ht; simp at ht
      | some cid =>
          rw [hh] at ht
          dsimp only at ht
          cases hc : cards.get? cid with
          | none => rw [hc] at ht; simp at ht
          | some card =>
              rw [hc] at ht
              dsimp only at ht
              simp only [List.nil_append, handApplyTargets, hh, hc, ht, if_true]
  | cons s pre' ih =>
      simp only [List.all_cons, Bool.and_eq_true] at hpre
      obtain ⟨hs, hpre'⟩ := hpre
      unfold targetOkB at hs
      cases hh : hand.get? s with
      | none => rw [hh] at hs; simp at hs
      | some cid =>
          rw [hh] at hs
          dsimp only at hs
          cases hc : cards.get? cid with
          | none => rw [hc] at hs; simp at hs
          | some card =>
              rw [hc] at hs
              dsimp only at hs
              have hps : card.played = false := by
                cases hpl : card.played
                · rfl
                · rw [hpl] at hs; simp at hs
              simp only [List.cons_append, handApplyTargets, hh, hc, hps,
                Bool.false_eq_true, if_false]
              exact ih (cards.set cid (card.add_information info))
                (by
                  rw [all_eq_all_of_mem
                    (fun x _ => targetOkB_set_addinfo hc info hand x)]
                  exact hpre')
                (by rw [targetPlayedB_set_addinfo hc info hand t]; exact ht)

/-- C6 amended: when the targeted indices preceding some target `t` all
resolve to not-yet-played cards and `t` resolves to an already played
card, `Hand.add_information` fails — but not atomically: the returned
store is the one obtained by applying the clue to the targets before `t`,
and no negations are applied. -/
theorem C6_hand_add_information_fails_nonatomically (cards : List Card)
    (hand : List ℕ) (info : Information) (pre : List ℕ) (t : ℕ)
    (post : List ℕ)
    (hpre : pre.all (targetOkB cards hand) = true)
    (ht : targetPlayedB cards hand t = true) :
    hand_add_information cards hand (pre ++ t :: post) info
      = ((handApplyTargets cards hand info pre).1, false) := by
  unfold hand_add_information
  rw [handApplyTargets_fail cards hand info pre t post hpre ht]
  simp

/-- The fresh first card of C6's concrete hand. -/
def c6fresh : Card := ⟨0, 0, 0, fun _ _ => true, false, []⟩

/-- The already played second card of C6's concrete hand. -/
def c6played : Card := ⟨1, 1, 0, fun _ _ => true, true, []⟩

/-- The two-card store of C6's concrete hand. -/
def c6cards : List Card := [c6fresh, c6played]

/-- The affirmed color-2 clue used by C6's counterexample. -/
def c6clue : Information := ⟨InfoType.color, 2, false⟩

/-- Counterexample to C6: targeting cards 0 and 1 when card 1 is played
makes `Hand.add_information` fail, yet card 0's belief mask has already
been mutated by the clue — the failure is not atomic. -/
theorem C6_counterexample :
    (hand_add_information c6cards [0, 1] [0, 1] c6clue).2 = false ∧
    c6played.played = true ∧
    ((hand_add_information c6cards [0, 1] [0, 1] c6clue).1.getD 0
      defaultCard).states 0 0 = false ∧
    c6fresh.states 0 0 = true := by
  decide

/-- Witness for the amended C6 at the concrete hand. -/
theorem C6_hand_add_information_fails_nonatomically_witness :
    ([0] : List ℕ).all (targetOkB c6cards [0, 1]) = true ∧
    targetPlayedB c6cards [0, 1] 1 = true ∧
    hand_add_information c6cards [0, 1] ([0] ++ 1 :: []) c6clue
      = ((handApplyTargets c6cards [0, 1] c6clue [0]).1, false) :=
  ⟨by decide, by decide,
    C6_hand_add_information_fails_nonatomically c6cards [0, 1] c6clue
      [0] 1 [] (by decide) (by decide)⟩

lemma updMat_apply {α : Type} (m : Mat α) (c v c' v' : Fin 5) (x : α) :
    updMat m c v x c' v' = if c' = c ∧ v' = v then x else m c' v' := by
  unfold updMat
  by_cases hc : c' = c
  · subst hc
    rw [Function.update_same]
    by_cases hv : v' = v
    · subst hv
      rw [Function.update_same, if_pos ⟨rfl, rfl⟩]
    · rw [Function.update_noteq hv, if_neg (fun h => hv h.2)]
  · rw [Function.update_noteq hc, if_neg (fun h => hc h.1)]

lemma sum_update_fin (f : Fin 5 → ℤ) (i : Fin 5) (b : ℤ) :
    (∑ j : Fin 5, Function.update f i b j) = (∑ j : Fin 5, f j) + b - f i := by
  rw [Finset.sum_update_of_mem (Finset.mem_univ i)]
  rw [Finset.sdiff_singleton_eq_erase]
  have h2 : ∑ j in Finset.univ.erase i, f j + f i = ∑ j : Fin 5, f j :=
    Finset.sum_erase_add _ _ (Finset.mem_univ i)
  linarith

lemma matZSum_updMat (m : Mat ℤ) (c v : Fin 5) (x : ℤ) :
    matZSum (updMat m c v x) = matZSum m + x - m c v := by
  unfold matZSum updMat
  have hfun : ∀ c' : Fin 5,
      (∑ v' : Fin 5, Function.update m c (Function.update (m c) v x) c' v')
        = Function.update (fun c'' => ∑ v' : Fin 5, m c'' v') c
            (∑ v' : Fin 5, Function.update (m c) v x v') c' := by
    intro c'
    by_cases hc : c' = c
    · subst hc
      rw [Function.update_same, Function.update_same]
    · rw [Function.update_noteq hc, Function.update_noteq hc]
  rw [Finset.sum_congr rfl (fun c' _ => hfun c'), sum_update_fin,
    sum_update_fin]
  ring

lemma countP_congr_mem {l : List ℕ} {p q : ℕ → Bool}
    (h : ∀ a ∈ l, p a = q a) : l.countP p = l.countP q := by
  induction l with
  | nil => rfl
  | cons y ys ih =>
      have hy : p y = q y := h y (List.mem_cons_self y ys)
      have hrest := ih fun z hz => h z (List.mem_cons_of_mem y hz)
      simp only [List.countP_cons, hy, hrest]

lemma countP_erase_of_mem {a : ℕ} {l : List ℕ} (h : a ∈ l) (p : ℕ → Bool) :
    l.countP p = (l.erase a).countP p + (if p a then 1 else 0) := by
  induction l with
  | nil => cases h
  | cons b t ih =>
      rw [List.erase_cons]
      by_cases hb : b = a
      · subst hb
        simp [List.countP_cons]
      · have hba : (b == a) = false := by simp [hb]
        have hat : a ∈ t := by
          rcases List.mem_cons.mp h with h1 | h1
          · exact absurd h1.symm hb
          · exact h1
        simp only [hba, Bool.false_eq_true, if_false]
        rw [List.countP_cons, List.countP_cons, ih hat]
        omega

lemma idPred_extend {cards : List Card} {nc : Card} {cid : ℕ}
    (h : cid < cards.length) (c v : Fin 5) :
    idPred (cards ++ [nc]) c v cid = idPred cards c v cid := by
  unfold idPred
  rw [List.get?_append h]

lemma idPred_concat (cards : List Card) (nc : Card) (c v : Fin 5) :
    idPred (cards ++ [nc]) c v cards.length
      = decide (nc.color = c ∧ nc.value = v) := by
  unfold idPred
  rw [List.get?_concat_length]

lemma idPred_set {cards : List Card} {cid : ℕ} {card card' : Card}
    (h : cards.get? cid = some card)
    (hcv : card'.color = card.color ∧ card'.value = card.value)
    (c v : Fin 5) (j : ℕ) :
    idPred (cards.set cid card') c v j = idPred cards c v j := by
  unfold idPred
  rw [get?_set_of_get? h]
  by_cases hj : j = cid
  · subst hj
    rw [if_pos rfl, h]
    dsimp only
    rw [hcv.1, hcv.2]
  · rw [if_neg hj]

lemma handApplyTargets_preserves (hand : List ℕ) (info : Information) :
    ∀ (targets : List ℕ) (cards : List Card),
      (handApplyTargets cards hand info targets).1.length = cards.length ∧
      ∀ c v j, idPred (handApplyTargets cards hand info targets).1 c v j
        = idPred cards c v j := by
  intro targets
  induction targets with
  | nil => exact fun cards => ⟨rfl, fun _ _ _ => rfl⟩
  | cons t rest ih =>
      intro cards
      cases hh : hand.get? t with
      | none => simp only [handApplyTargets, hh]; exact ⟨trivial, fun _ _ _ => trivial⟩
      | some cid =>
          cases hc : cards.get? cid with
          | none =>
              simp only [handApplyTargets, hh, hc]
              exact ⟨trivial, fun _ _ _ => trivial⟩
          | some card =>
              by_cases hp : card.played = true
              · simp only [handApplyTargets, hh, hc, hp, if_true]
                exact ⟨trivial, fun _ _ _ => trivial⟩
              · have hps : card.played = false := by
                  cases hpl : card.played
                  · rfl
                  · exact absurd hpl hp
                simp only [handApplyTargets, hh, hc, hps, Bool.false_eq_true,
                  if_false]
                obtain ⟨ihl, ihp⟩ :=
                  ih (cards.set cid (card.add_information info))
                constructor
                · rw [ihl, List.length_set]
                · intro c v j
                  exact (ihp c v j).trans
                    (@idPred_set cards cid card (card.add_information info)
                      hc ⟨rfl, rfl⟩ c v j)

lemma handNegateOthers_preserves (cards : List Card) (hand targets : List ℕ)
    (info : Information) :
    (handNegateOthers cards hand targets info).length = cards.length ∧
    ∀ c v j, idPred (handNegateOthers cards hand targets info) c v j
      = idPred cards c v j := by
  unfold handNegateOthers
  generalize hand.enum = l
  induction l generalizing cards with
  | nil => exact ⟨rfl, fun _ _ _ => rfl⟩
  | cons p rest ih =>
      simp only [List.foldl_cons]
      by_cases hm : p.1 ∈ targets
      · rw [if_pos hm]
        exact ih cards
      · rw [if_neg hm]
        cases hc : cards.get? p.2 with
        | none => exact ih cards
        | some card =>
            by_cases hp : card.played = true
            · simp only [hp, if_true]
              exact ih cards
            · have hps : card.played = false := by
                cases hpl : card.played
                · rfl
                · exact absurd hpl hp
              simp only [hps, Bool.false_eq_true, if_false]
              obtain ⟨ihl, ihp⟩ :=
                ih (cards.set p.2 (card.add_information info.negate))
              constructor
              · rw [ihl, List.length_set]
              · intro c v j
                exact (ihp c v j).trans
                  (@idPred_set cards p.2 card (card.add_information info.negate)
                    hc ⟨rfl, rfl⟩ c v j)

lemma hand_add_information_preserves (cards : List Card)
    (hand targets : List ℕ) (info : Information) :
    (hand_add_information cards hand targets info).1.length = cards.length ∧
    ∀ c v j, idPred (hand_add_information cards hand targets info).1 c v j
      = idPred cards c v j := by
  unfold hand_add_information
  obtain ⟨hal, hap⟩ := handApplyTargets_preserves hand info targets cards
  by_cases hr : (handApplyTargets cards hand info targets).2 = true
  · simp only [hr, if_true]
    obtain ⟨hnl, hnp⟩ := handNegateOthers_preserves
      (handApplyTargets cards hand info targets).1 hand targets info
    exact ⟨hnl.trans hal, fun c v j => (hnp c v j).trans (hap c v j)⟩
  · have hrf : (handApplyTargets cards hand info targets).2 = false := by
      cases hx : (handApplyTargets cards hand info targets).2
      · rfl
      · exact absurd hx hr
    simp only [hrf, Bool.false_eq_true, if_false]
    exact ⟨hal, hap⟩

lemma deal_card_fail {g : GameState} {c v : Fin 5} {pid : ℕ} (gs : Bool)
    (h : ¬ pid < g.num_players ∨ g.deck c v = 0) :
    deal_card g c v pid gs = (g, false) := by
  unfold deal_card
  rcases h with h | h
  · rw [if_neg h]
  · by_cases hp : pid < g.num_players
    · rw [if_pos hp, if_pos h]
    · rw [if_neg hp]

lemma deal_card_success {g : GameState} {c v : Fin 5} {pid : ℕ} (gs : Bool)
    (hp : pid < g.num_players) (hd : ¬ g.deck c v = 0) :
    deal_card g c v pid gs
      = ({ g with
            deck := updMat g.deck c v (g.deck c v - 1),
            states := fun i =>
              if i < g.num_players ∧ i ≠ pid then
                updMat (g.states i) c v (g.states i c v - 1)
              else g.states i,
            players := Function.update g.players pid
              (g.players pid ++ [g.cards.length]),
            cards := g.cards ++
              [⟨c, v, pid, fun _ _ => true, false,
                if gs then [] else g.players pid⟩] }, true) := by
  unfold deal_card
  rw [if_pos hp, if_neg hd]

/-- The invariant carried through the reachability induction: the deck
never exceeds the initial counts, all hand references point into the card
store, and each player's state matrix dominates the deck by at least the
number of copies of each identity currently in that player's hand. -/
def GameInv (g : GameState) : Prop :=
  (∀ c v, g.deck c v ≤ INITM c v) ∧
  (∀ p, ∀ cid ∈ g.players p, cid < g.cards.length) ∧
  (∀ p c v, g.deck c v + (handCount g p c v : ℤ) ≤ g.states p c v)

lemma Inv_init : GameInv initGame := by
  refine ⟨fun c v => le_refl _, ?_, ?_⟩
  · intro p cid hm
    exact absurd hm (List.not_mem_nil cid)
  · intro p c v
    simp [handCount, initGame]

lemma Inv_add_player {g : GameState} (h : GameInv g) : GameInv (add_player g) := by
  obtain ⟨h1, h2, h3⟩ := h
  refine ⟨h1, ?_, ?_⟩
  · intro p cid hm
    by_cases hp : p = g.num_players
    · subst hp
      simp only [add_player, Function.update_same] at hm
      exact absurd hm (List.not_mem_nil cid)
    · simp only [add_player, Function.update_noteq hp] at hm
      exact h2 p cid hm
  · intro p c v
    by_cases hp : p = g.num_players
    · subst hp
      simp only [handCount, add_player, Function.update_same,
        List.countP_nil]
      simpa using h1 c v
    · simp only [handCount, add_player, Function.update_noteq hp]
      exact h3 p c v

lemma Inv_deal_card {g : GameState} (h : GameInv g) (c v : Fin 5) (pid : ℕ)
    (gs : Bool) : GameInv (deal_card g c v pid gs).1 := by
  obtain ⟨h1, h2, h3⟩ := h
  by_cases hp : pid < g.num_players
  · by_cases hd : g.deck c v = 0
    · rw [deal_card_fail gs (Or.inr hd)]
      exact ⟨h1, h2, h3⟩
    · rw [deal_card_success gs hp hd]
      refine ⟨?_, ?_, ?_⟩
      · intro c' v'
        dsimp only
        rw [updMat_apply]
        by_cases hcv : c' = c ∧ v' = v
        · rw [if_pos hcv]
          obtain ⟨hc1, hv1⟩ := hcv
          subst hc1; subst hv1
          have := h1 c' v'
          omega
        · rw [if_neg hcv]
          exact h1 c' v'
      · intro p cid hm
        dsimp only at hm ⊢
        simp only [List.length_append, List.length_singleton]
        by_cases hpp : p = pid
        · subst hpp
          rw [Function.update_same] at hm
          rcases List.mem_append.mp hm with hm1 | hm1
          · have := h2 p cid hm1
            omega
          · have : cid = g.cards.length := by simpa using hm1
            omega
        · rw [Function.update_noteq hpp] at hm
          have := h2 p cid hm
          omega
      · intro p c' v'
        dsimp only [handCount]
        have hpres : ∀ ids : List ℕ, (∀ x ∈ ids, x < g.cards.length) →
            ids.countP (idPred (g.cards ++
              [⟨c, v, pid, fun _ _ => true, false,
                if gs then [] else g.players pid⟩]) c' v')
              = ids.countP (idPred g.cards c' v') :=
          fun ids hb =>
            countP_congr_mem (fun a ha => idPred_extend (hb a ha) c' v')
        have hh3 := h3 p c' v'
        simp only [handCount] at hh3
        by_cases hpp : p = pid
        · subst hpp
          rw [Function.update_same]
          rw [List.countP_append]
          rw [hpres (g.players p) (h2 p)]
          have hsingle : ([g.cards.length] : List ℕ).countP
              (idPred (g.cards ++
                [⟨c, v, p, fun _ _ => true, false,
                  if gs then [] else g.players p⟩]) c' v')
              = if (decide (c = c' ∧ v = v')) = true then 1 else 0 := by
            rw [List.countP_cons, List.countP_nil, idPred_concat]
            simp
          rw [hsingle]
          have hstate : (if p < g.num_players ∧ p ≠ p then
              updMat (g.states p) c v (g.states p c v - 1)
            else g.states p) = g.states p := by
            rw [if_neg (fun hcontra => hcontra.2 rfl)]
          rw [hstate]
          rw [updMat_apply]
          by_cases hcv : c' = c ∧ v' = v
          · rw [if_pos hcv]
            rw [if_pos (by
              simp only [decide_eq_true_eq]
              exact ⟨hcv.1.symm, hcv.2.symm⟩)]
            obtain ⟨hc1, hv1⟩ := hcv
            subst hc1; subst hv1
            push_cast
            omega
          · rw [if_neg hcv]
            rw [if_neg (by
              simp only [decide_eq_true_eq]
              intro hcontra
              exact hcv ⟨hcontra.1.symm, hcontra.2.symm⟩)]
            push_cast
            omega
        · rw [Function.update_noteq hpp]
          rw [hpres (g.players p) (h2 p)]
          by_cases hplt : p < g.num_players
          · rw [if_pos ⟨hplt, hpp⟩]
            rw [updMat_apply, updMat_apply]
            by_cases hcv : c' = c ∧ v' = v
            · rw [if_pos hcv, if_pos hcv]
              obtain ⟨hc1, hv1⟩ := hcv
              subst hc1; subst hv1
              omega
            · rw [if_neg hcv, if_neg hcv]
              exact hh3
          · rw [if_neg (fun hcontra => hplt hcontra.1)]
            rw [updMat_apply]
            by_cases hcv : c' = c ∧ v' = v
            · rw [if_pos hcv]
              obtain ⟨hc1, hv1⟩ := hcv
              subst hc1; subst hv1
              omega
            · rw [if_neg hcv]
              exact hh3
  · rw [deal_card_fail gs (Or.inl hp)]
    exact ⟨h1, h2, h3⟩

lemma play_card_fields {g : GameState} {pid idx cid : ℕ} {card : Card}
    (hp : pid < g.num_players)
    (hidx : (g.players pid).get? idx = some cid)
    (hcard : g.cards.get? cid = some card) :
    (play_card g pid idx).1.deck = g.deck ∧
    (play_card g pid idx).1.num_players = g.num_players ∧
    (play_card g pid idx).1.cards = g.cards.set cid { card with played := true } ∧
    (play_card g pid idx).1.players
      = Function.update g.players pid ((g.players pid).erase cid) ∧
    (play_card g pid idx).1.states
      = Function.update g.states pid
          (updMat (g.states pid) card.color card.value
            (g.states pid card.color card.value - 1)) := by
  unfold play_card
  rw [if_pos hp]
  simp only [hidx, hcard]
  by_cases hst : g.stacks' card.color = (card.value : ℤ)
  · rw [if_pos hst]
    exact ⟨rfl, rfl, rfl, rfl, rfl⟩
  · rw [if_neg hst]
    exact ⟨rfl, rfl, rfl, rfl, rfl⟩

lemma Inv_play_card {g : GameState} (h : GameInv g) (pid idx : ℕ) :
    GameInv (play_card g pid idx).1 := by
  by_cases hp : pid < g.num_players
  · cases hidx : (g.players pid).get? idx with
    | none =>
        unfold play_card
        rw [if_pos hp]
        simp only [hidx]
        exact h
    | some cid =>
        cases hcard : g.cards.get? cid with
        | none =>
            unfold play_card
            rw [if_pos hp]
            simp only [hidx, hcard]
            exact h
        | some card =>
            obtain ⟨hdeck, hnum, hcards, hplayers, hstates⟩ :=
              play_card_fields hp hidx hcard
            obtain ⟨h1, h2, h3⟩ := h
            have hmem : cid ∈ g.players pid := List.get?_mem hidx
            refine ⟨?_, ?_, ?_⟩
            · intro c' v'
              rw [hdeck]
              exact h1 c' v'
            · intro p cid' hm
              rw [hplayers] at hm
              rw [hcards, List.length_set]
              by_cases hpp : p = pid
              · subst hpp
                rw [Function.update_same] at hm
                exact h2 p cid' (List.mem_of_mem_erase hm)
              · rw [Function.update_noteq hpp] at hm
                exact h2 p cid' hm
            · intro p c' v'
              have hidp : ∀ j, idPred (g.cards.set cid
                  { card with played := true }) c' v' j
                  = idPred g.cards c' v' j :=
                @idPred_set _ _ _ { card with played := true } hcard
                  ⟨rfl, rfl⟩ c' v'
              have hh3 := h3 p c' v'
              simp only [handCount] at hh3 ⊢
              rw [hcards, hplayers, hstates, hdeck]
              by_cases hpp : p = pid
              · subst hpp
                rw [Function.update_same, Function.update_same]
                rw [countP_congr_mem (fun a _ => hidp a)]
                have herase := countP_erase_of_mem hmem (idPred g.cards c' v')
                rw [updMat_apply]
                by_cases hcv : c' = card.color ∧ v' = card.value
                · rw [if_pos hcv]
                  have hidcid : idPred g.cards c' v' cid = true := by
                    unfold idPred
                    rw [hcard]
                    dsimp only
                    simp only [decide_eq_true_eq]
                    exact ⟨hcv.1.symm, hcv.2.symm⟩
                  rw [hidcid] at herase
                  simp only [if_true] at herase
                  obtain ⟨hc1, hv1⟩ := hcv
                  subst hc1; subst hv1
                  omega
                · rw [if_neg hcv]
                  have hidcid : idPred g.cards c' v' cid = false := by
                    unfold idPred
                    rw [hcard]
                    dsimp only
                    simp only [decide_eq_false_iff_not]
                    intro hcontra
                    exact hcv ⟨hcontra.1.symm, hcontra.2.symm⟩
                  rw [hidcid] at herase
                  simp only [Bool.false_eq_true, if_false] at herase
                  omega
              · rw [Function.update_noteq hpp, Function.update_noteq hpp]
                rw [countP_congr_mem (fun a _ => hidp a)]
                exact hh3
  · unfold play_card
    rw [if_neg hp]
    exact h

lemma Inv_give_information {g : GameState} (h : GameInv g) (pid : ℕ)
    (targets : List ℕ) (info : Information) :
    GameInv (give_information g pid targets info).1 := by
  unfold give_information
  by_cases hp : pid < g.num_players
  · rw [if_pos hp]
    obtain ⟨h1, h2, h3⟩ := h
    obtain ⟨hl, hip⟩ := hand_add_information_preserves g.cards
      (g.players pid) targets info
    refine ⟨h1, ?_, ?_⟩
    · intro p cid hm
      dsimp only at hm ⊢
      rw [hl]
      exact h2 p cid hm
    · intro p c' v'
      have hh3 := h3 p c' v'
      simp only [handCount] at hh3 ⊢
      rw [countP_congr_mem (fun a _ => hip c' v' a)]
      exact hh3
  · rw [if_neg hp]
    exact h

lemma Inv_dealHandLoop (pid : ℕ) (gs : Bool) :
    ∀ (samples : List (Fin 5 × Fin 5)) (g : GameState), GameInv g →
      GameInv (dealHandLoop pid gs g samples).1 := by
  intro samples
  induction samples with
  | nil => exact fun g h => h
  | cons s rest ih =>
      intro g h
      unfold dealHandLoop
      by_cases hz : matZSum g.deck = 0
      · rw [if_pos hz]
        exact h
      · rw [if_neg hz]
        by_cases hr : (deal_card g s.1 s.2 pid gs).2 = true
        · rw [if_pos hr]
          exact ih _ (Inv_deal_card h s.1 s.2 pid gs)
        · rw [if_neg hr]
          exact Inv_deal_card h s.1 s.2 pid gs
  
lemma Inv_deal_hand {g : GameState} (h : GameInv g) (pid : ℕ) (gs : Bool)
    (samples : List (Fin 5 × Fin 5)) :
    GameInv (deal_hand g pid gs samples).1 := by
  unfold deal_hand
  by_cases hp : pid < g.num_players
  · rw [if_pos hp]
    exact Inv_dealHandLoop pid gs samples g h
  · rw [if_neg hp]
    exact h

lemma reachable_inv {g : GameState} (h : Reachable g) : GameInv g := by
  induction h with
  | init => exact Inv_init
  | add_player _ ih => exact Inv_add_player ih
  | deal_card c v pid gs _ ih => exact Inv_deal_card ih c v pid gs
  | deal_hand pid gs samples _ ih => exact Inv_deal_hand ih pid gs samples
  | play_card pid idx _ ih => exact Inv_play_card ih pid idx
  | give_information pid targets info _ ih =>
      exact Inv_give_information ih pid targets info

/-- C4 amended: in every reachable game state, every player's visible
state matrix dominates the deck elementwise; the deck can be strictly
below the elementwise minimum of the players' states (it equals the
minimum only when no identity is simultaneously held unseen by every
player), so only the inequality half of the claimed invariant holds. -/
theorem C4_states_dominate_deck (g : GameState) (h : Reachable g) (p : ℕ)
    (hp : p < g.num_players) (c v : Fin 5) :
    g.deck c v ≤ g.states p c v := by
  have hi := reachable_inv h
  have h3 := hi.2.2 p c v
  omega

/-- The reachable state of C4's counterexample: two players, both copies
of identity (0, 1) dealt, one to each player. -/
def c4state : GameState :=
  (deal_card (deal_card (add_player (add_player initGame)) 0 1 0 false).1
    0 1 1 false).1

/-- Counterexample to C4: in `c4state` the deck cell (0, 1) is 0, yet
both players' state matrices hold 1 there (each player discounts only the
copy seen in the other player's hand), so the deck is strictly below the
elementwise min over the players and the claimed equality fails. -/
theorem C4_counterexample :
    Reachable c4state ∧
    c4state.num_players = 2 ∧
    c4state.deck 0 1 = 0 ∧
    c4state.states 0 0 1 = 1 ∧
    c4state.states 1 0 1 = 1 ∧
    c4state.deck 0 1 ≠ min (c4state.states 0 0 1) (c4state.states 1 0 1) := by
  refine ⟨?_, by decide, by decide, by decide, by decide, by decide⟩
  exact Reachable.deal_card 0 1 1 false
    (Reachable.deal_card 0 1 0 false
      (Reachable.add_player (Reachable.add_player Reachable.init)))

/-- Witness for the amended C4 at the reachable one-player state. -/
theorem C4_states_dominate_deck_witness :
    Reachable (add_player initGame) ∧
    0 < (add_player initGame).num_players ∧
    (add_player initGame).deck 0 0 ≤ (add_player initGame).states 0 0 0 :=
  ⟨Reachable.add_player Reachable.init, by decide,
    C4_states_dominate_deck (add_player initGame)
      (Reachable.add_player Reachable.init) 0 (by decide) 0 0⟩

/-- C8: `deal_card` fails, mutating nothing, when the player id is out of
range or the deck cell of the card's identity is 0; on success the deck
sum drops by exactly 1 (the identity's cell by 1), every other player's
state matrix drops by 1 at that identity, the owner's state matrix is
unchanged, and the card is appended to the owner's hand. -/
theorem C8_deal_card_spec (g : GameState) (c v : Fin 5) (pid : ℕ)
    (gs : Bool) :
    ((¬ pid < g.num_players ∨ g.deck c v = 0) →
      deal_card g c v pid gs = (g, false)) ∧
    (pid < g.num_players → g.deck c v ≠ 0 →
      ((deal_card g c v pid gs).2 = true ∧
       matZSum (deal_card g c v pid gs).1.deck = matZSum g.deck - 1 ∧
       (deal_card g c v pid gs).1.deck c v = g.deck c v - 1 ∧
       (∀ q, q < g.num_players → q ≠ pid →
          (deal_card g c v pid gs).1.states q c v = g.states q c v - 1) ∧
       (deal_card g c v pid gs).1.states pid = g.states pid ∧
       (deal_card g c v pid gs).1.players pid
         = g.players pid ++ [g.cards.length] ∧
       (deal_card g c v pid gs).1.cards.get? g.cards.length
         = some ⟨c, v, pid, fun _ _ => true, false,
             if gs then [] else g.players pid⟩)) := by
  constructor
  · exact fun h => deal_card_fail gs h
  · intro hp hd
    rw [deal_card_success gs hp hd]
    refine ⟨rfl, ?_, ?_, ?_, ?_, ?_, ?_⟩
    · dsimp only
      rw [matZSum_updMat]
      ring
    · dsimp only
      rw [updMat_apply, if_pos ⟨rfl, rfl⟩]
    · intro q hq hqp
      dsimp only
      rw [if_pos ⟨hq, hqp⟩, updMat_apply, if_pos ⟨rfl, rfl⟩]
    · dsimp only
      rw [if_neg (fun hcontra => hcontra.2 rfl)]
    · dsimp only
      rw [Function.update_same]
    · dsimp only
      exact List.get?_concat_length _ _

/-- Witness for C8: the first successful deal of identity (0, 0) to the
only player of a fresh one-player game. -/
theorem C8_deal_card_spec_witness :
    (0 < (add_player initGame).num_players ∧
      (add_player initGame).deck 0 0 ≠ 0) ∧
    ((deal_card (add_player initGame) 0 0 0 false).2 = true ∧
     matZSum (deal_card (add_player initGame) 0 0 0 false).1.deck
       = matZSum (add_player initGame).deck - 1 ∧
     (deal_card (add_player initGame) 0 0 0 false).1.deck 0 0
       = (add_player initGame).deck 0 0 - 1 ∧
     (∀ q, q < (add_player initGame).num_players → q ≠ 0 →
        (deal_card (add_player initGame) 0 0 0 false).1.states q 0 0
          = (add_player initGame).states q 0 0 - 1) ∧
     (deal_card (add_player initGame) 0 0 0 false).1.states 0
       = (add_player initGame).states 0 ∧
     (deal_card (add_player initGame) 0 0 0 false).1.players 0
       = (add_player initGame).players 0
           ++ [(add_player initGame).cards.length] ∧
     (deal_card (add_player initGame) 0 0 0 false).1.cards.get?
         (add_player initGame).cards.length
       = some ⟨0, 0, 0, fun _ _ => true, false,
           if false then [] else (add_player initGame).players 0⟩) :=
  ⟨⟨by decide, by decide⟩,
    (C8_deal_card_spec (add_player initGame) 0 0 0 false).2
      (by decide) (by decide)⟩
